import Mathlib

/-!
Verification of the FalkorDB graph exporter (src/main.py) against its
specification. The exporter connects to a graph database, flattens every
node row (identity, label sequence, property mapping) and every edge row
(identity, type, source id, destination id, property mapping) into flat
records, and writes the two record collections as tabular files.

The embedding models Python dictionaries as ordered association lists with
Python insertion semantics (updating an existing key keeps its position,
a new key is appended), the pandas DataFrame construction from a list of
dicts as a table whose column set is the union of keys in order of first
appearance with missing cells rendered as none, and the connection step as
a server that is either reachable or raises a connection error before any
file is written.
-/

set_option autoImplicit false

namespace GraphExporter

/-- Scalar property values carried by nodes and edges
(string / number / boolean / null). -/
inductive Value where
  | str : String → Value
  | int : Int → Value
  | bool : Bool → Value
  | null : Value
deriving DecidableEq

/-- A Python dict, modelled as an ordered association list.
Real dicts have no duplicate keys; theorems that depend on this carry a
Nodup hypothesis on the key list. -/
abbrev Dict := List (String × Value)

/-- The key list of a dict, in insertion order. -/
def keys (d : Dict) : List String := d.map Prod.fst

/-- Python dict lookup d[k], as an Option. -/
def dictGet (d : Dict) (k : String) : Option Value :=
  (d.find? (fun p => p.1 == k)).map Prod.snd

/-- Python dict assignment d[k] = v: an existing key is updated in place
(its position is preserved), a new key is appended at the end. -/
def dictInsert : Dict → String → Value → Dict
  | [], k, v => [(k, v)]
  | p :: ps, k, v => if p.1 == k then (k, v) :: ps else p :: dictInsert ps k v

/-- Python dict.update(ps): assign every pair of ps into d, in order. -/
def dictUpdate (d : Dict) (ps : Dict) : Dict :=
  ps.foldl (fun acc p => dictInsert acc p.1 p.2) d

/-- One row of the node query result set
(src/main.py line 11: MATCH (n) RETURN ID(n), labels(n), properties(n)).
A null property mapping from the server is modelled as none. -/
structure NodeRow where
  nodeId : Int
  labels : List String
  props : Option Dict
deriving DecidableEq

/-- Flattening of one node row (src/main.py lines 14-18):
props = record[2] or {}; node = {id: node_id, label: labels[0] if labels
else ""}; node.update(props). -/
def flattenNode (r : NodeRow) : Dict :=
  let props := r.props.getD []
  let node : Dict :=
    [("id", Value.int r.nodeId),
     ("label", Value.str (match r.labels with | [] => "" | l :: _ => l))]
  dictUpdate node props

/-- One row of the edge query result set (src/main.py line 25:
MATCH (a)-[e]-(b) RETURN ID(e), TYPE(e), ID(a), ID(b), properties(e)). -/
structure EdgeRow where
  edgeId : Int
  edgeType : String
  fromId : Int
  toId : Int
  props : Option Dict
deriving DecidableEq

/-- Flattening of one edge row (src/main.py lines 28-39):
props = record[4] or {}; edge = {id, type, from_id, to_id};
edge.update(props). -/
def flattenEdge (r : EdgeRow) : Dict :=
  let props := r.props.getD []
  let edge : Dict :=
    [("id", Value.int r.edgeId),
     ("type", Value.str r.edgeType),
     ("from_id", Value.int r.fromId),
     ("to_id", Value.int r.toId)]
  dictUpdate edge props

/-- The node loop of src/main.py lines 12-19: nodes = []; for each record
append the flattened node. -/
def flattenNodes (rows : List NodeRow) : List Dict :=
  rows.foldl (fun acc r => acc ++ [flattenNode r]) []

/-- The edge loop of src/main.py lines 26-40. -/
def flattenEdges (rows : List EdgeRow) : List Dict :=
  rows.foldl (fun acc r => acc ++ [flattenEdge r]) []

/-- A written tabular file: a column header and one cell row per record;
a missing cell is none (rendered as an empty field). -/
structure Table where
  columns : List String
  rows : List (List (Option Value))
deriving DecidableEq

/-- Append a column name if it is not already present. -/
def insertKey (acc : List String) (k : String) : List String :=
  if acc.contains k then acc else acc ++ [k]

/-- Union of all keys across a record collection, in order of first
appearance. -/
def unionKeys (records : List Dict) : List String :=
  records.foldl (fun acc r => r.foldl (fun acc2 p => insertKey acc2 p.1) acc) []

/-- Model of pd.DataFrame(records).to_csv(...) (src/main.py lines 21 and
42): the column set is the union of keys across all records, each record
becomes one row, and a record lacking a column yields an empty cell. An
empty record list yields a table with no columns and no rows. -/
def toTable (records : List Dict) : Table :=
  let cols := unionKeys records
  { columns := cols, rows := records.map (fun r => cols.map (fun c => dictGet r c)) }

/-- Errors surfaced by an export run. -/
inductive ExportError where
  | connectionError
deriving DecidableEq

/-- The environment of one export run: whether the endpoint accepts the
connection, and the rows the two queries return. -/
structure Server where
  reachable : Bool
  nodeRows : List NodeRow
  edgeRows : List EdgeRow

/-- Model of export_graph (src/main.py lines 5-43): connect first; on
failure propagate the connection error with no file written; otherwise
flatten and write nodes.csv then edges.csv. The first component lists the
files written, in order. -/
def export_graph (s : Server) : List (String × Table) × Option ExportError :=
  if s.reachable then
    ([("nodes.csv", toTable (flattenNodes s.nodeRows)),
      ("edges.csv", toTable (flattenEdges s.edgeRows))], none)
  else ([], some ExportError.connectionError)

/-- Dedup keeping the first occurrence of each name: the order of first
appearance. Spec-side characterisation used to state the column-order
claim. -/
def firstDedup : List String → List String
  | [] => []
  | k :: ks => k :: firstDedup (ks.filter (fun x => x != k))
termination_by l => l.length
decreasing_by
  exact Nat.lt_succ_of_le (List.length_filter_le _ _)

/-! Helper lemmas about the dict model. -/

theorem contains_eq_decide_mem (l : List String) (a : String) :
    l.contains a = decide (a ∈ l) := List.elem_eq_mem a l

theorem dictGet_cons (p : String × Value) (d : Dict) (k : String) :
    dictGet (p :: d) k = if p.1 == k then some p.2 else dictGet d k := by
  cases h : p.1 == k <;> simp [dictGet, List.find?_cons, h]

theorem firstDedup_nil : firstDedup [] = [] := by
  rw [firstDedup]

theorem firstDedup_cons (k : String) (ks : List String) :
    firstDedup (k :: ks) = k :: firstDedup (ks.filter (fun x => x != k)) := by
  rw [firstDedup]

theorem dictUpdate_nil (d : Dict) : dictUpdate d [] = d := rfl

theorem dictUpdate_cons (d : Dict) (q : String × Value) (qs : Dict) :
    dictUpdate d (q :: qs) = dictUpdate (dictInsert d q.1 q.2) qs := rfl

theorem dictGet_dictInsert_self (d : Dict) (k : String) (v : Value) :
    dictGet (dictInsert d k v) k = some v := by
  induction d with
  | nil => simp [dictInsert, dictGet_cons]
  | cons p ps ih =>
    by_cases h : p.1 = k
    · simp [dictInsert, h, dictGet_cons]
    · simp [dictInsert, h, dictGet_cons, ih]

theorem dictGet_dictInsert_ne (d : Dict) (k k' : String) (v : Value) (h : k' ≠ k) :
    dictGet (dictInsert d k v) k' = dictGet d k' := by
  induction d with
  | nil => simp [dictInsert, dictGet_cons, dictGet, Ne.symm h]
  | cons p ps ih =>
    by_cases hp : p.1 = k
    · simp [dictInsert, hp, dictGet_cons, Ne.symm h]
    · simp [dictInsert, hp, dictGet_cons, ih]

theorem keys_dictInsert (d : Dict) (k : String) (v : Value) :
    keys (dictInsert d k v) = if k ∈ keys d then keys d else keys d ++ [k] := by
  induction d with
  | nil => simp [dictInsert, keys]
  | cons p ps ih =>
    by_cases hp : p.1 = k
    · rw [dictInsert, if_pos (by simp [hp])]
      simp [keys, hp]
    · rw [dictInsert, if_neg (by simp [hp])]
      simp only [keys, List.map_cons] at ih ⊢
      rw [ih]
      by_cases hk : k ∈ List.map Prod.fst ps
      · rw [if_pos hk, if_pos (by simp [hk])]
      · rw [if_neg hk,
          if_neg (by
            simp only [List.mem_cons, not_or]
            exact ⟨fun hh => hp hh.symm, hk⟩),
          List.cons_append]

theorem mem_keys_dictInsert (d : Dict) (k k' : String) (v : Value) :
    k' ∈ keys (dictInsert d k v) ↔ k' ∈ keys d ∨ k' = k := by
  rw [keys_dictInsert]
  by_cases h : k ∈ keys d
  · simp only [h, if_true]
    constructor
    · exact fun hm => Or.inl hm
    · rintro (hm | rfl) <;> assumption
  · simp [h]

theorem dictGet_dictUpdate_not_mem (d ps : Dict) (k : String) (h : k ∉ keys ps) :
    dictGet (dictUpdate d ps) k = dictGet d k := by
  induction ps generalizing d with
  | nil => rfl
  | cons q qs ih =>
    simp only [keys, List.map_cons, List.mem_cons, not_or] at h
    rw [dictUpdate_cons, ih _ (by simpa [keys] using h.2),
      dictGet_dictInsert_ne _ _ _ _ h.1]

theorem dictGet_dictUpdate_mem (d ps : Dict) (k : String) (v : Value)
    (hnd : (keys ps).Nodup) (h : (k, v) ∈ ps) :
    dictGet (dictUpdate d ps) k = some v := by
  induction ps generalizing d with
  | nil => cases h
  | cons q qs ih =>
    obtain ⟨a, b⟩ := q
    simp only [keys, List.map_cons, List.nodup_cons] at hnd
    rw [dictUpdate_cons]
    rcases List.mem_cons.mp h with h1 | h1
    · injection h1 with h1a h1b
      subst h1a
      subst h1b
      rw [show dictUpdate (dictInsert d (k, v).1 (k, v).2) qs =
            dictUpdate (dictInsert d k v) qs from rfl,
        dictGet_dictUpdate_not_mem _ _ _ (by simpa [keys] using hnd.1),
        dictGet_dictInsert_self]
    · exact ih _ (by simpa [keys] using hnd.2) h1

theorem mem_keys_dictUpdate (d ps : Dict) (k : String) :
    k ∈ keys (dictUpdate d ps) ↔ k ∈ keys d ∨ k ∈ keys ps := by
  induction ps generalizing d with
  | nil => simp [dictUpdate_nil, keys]
  | cons q qs ih =>
    rw [dictUpdate_cons, ih, mem_keys_dictInsert]
    simp only [keys, List.map_cons, List.mem_cons]
    tauto

theorem keys_dictUpdate_append (d ps : Dict) :
    ∃ extra, keys (dictUpdate d ps) = keys d ++ extra := by
  induction ps generalizing d with
  | nil => exact ⟨[], by simp [dictUpdate_nil]⟩
  | cons q qs ih =>
    rw [dictUpdate_cons]
    obtain ⟨e, he⟩ := ih (dictInsert d q.1 q.2)
    rw [he, keys_dictInsert]
    by_cases h : q.1 ∈ keys d
    · exact ⟨e, by simp [h]⟩
    · exact ⟨q.1 :: e, by simp [h]⟩

theorem dictGet_eq_none_of_not_mem_keys (d : Dict) (k : String) (h : k ∉ keys d) :
    dictGet d k = none := by
  induction d with
  | nil => rfl
  | cons p ps ih =>
    simp only [keys, List.map_cons, List.mem_cons, not_or] at h
    rw [dictGet_cons,
      if_neg (by simp only [beq_iff_eq]; exact fun hh => h.1 hh.symm),
      ih (by simpa [keys] using h.2)]

/-! Helper lemmas about the loops and the table writer. -/

theorem foldl_append_eq_map {α β : Type} (f : α → β) (rows : List α)
    (init : List β) :
    rows.foldl (fun acc r => acc ++ [f r]) init = init ++ rows.map f := by
  induction rows generalizing init with
  | nil => simp
  | cons r rs ih => simp [ih]

theorem flattenNodes_eq_map (rows : List NodeRow) :
    flattenNodes rows = rows.map flattenNode := by
  simpa using foldl_append_eq_map flattenNode rows []

theorem flattenEdges_eq_map (rows : List EdgeRow) :
    flattenEdges rows = rows.map flattenEdge := by
  simpa using foldl_append_eq_map flattenEdge rows []

theorem foldl_insertKey (l : List String) (acc : List String) :
    l.foldl insertKey acc =
      acc ++ firstDedup (l.filter (fun k => ! acc.contains k)) := by
  induction l generalizing acc with
  | nil => simp [firstDedup_nil]
  | cons k ks ih =>
    rw [List.foldl_cons, ih]
    by_cases hc : acc.contains k = true
    · rw [show insertKey acc k = acc from if_pos hc, List.filter_cons,
        if_neg (by rw [hc]; simp)]
    · have hcf : acc.contains k = false := by
        revert hc
        cases acc.contains k <;> simp
      rw [show insertKey acc k = acc ++ [k] from if_neg hc, List.filter_cons,
        if_pos (by rw [hcf]; rfl), firstDedup_cons, List.filter_filter]
      have hpred : List.filter (fun x => !(acc ++ [k]).contains x) ks =
          List.filter (fun a => (a != k) && !acc.contains a) ks := by
        apply List.filter_congr
        intro x _
        by_cases h1 : x = k <;> by_cases h2 : x ∈ acc <;>
          simp [h1, h2, contains_eq_decide_mem, List.mem_append]
      rw [hpred]
      simp [List.append_assoc]

theorem unionKeys_eq_firstDedup (records : List Dict) :
    unionKeys records = firstDedup ((records.map keys).flatten) := by
  have h1 : (fun (acc : List String) (r : Dict) =>
      r.foldl (fun acc2 p => insertKey acc2 p.1) acc) =
      fun acc r => (keys r).foldl insertKey acc := by
    funext acc r
    rw [keys, List.foldl_map]
  rw [unionKeys, h1, ← List.foldl_map, ← List.foldl_flatten, foldl_insertKey]
  simp only [List.nil_append, List.contains_nil, Bool.not_false, List.filter_true]

theorem mem_firstDedup (l : List String) (k : String) :
    k ∈ firstDedup l ↔ k ∈ l := by
  induction l using firstDedup.induct with
  | case1 => simp [firstDedup_nil]
  | case2 a as ih =>
    rw [firstDedup_cons]
    simp only [List.mem_cons, ih, List.mem_filter, bne_iff_ne, ne_eq]
    by_cases h : k = a
    · simp [h]
    · simp [h]

theorem mem_unionKeys (records : List Dict) (k : String) :
    k ∈ unionKeys records ↔ ∃ r, r ∈ records ∧ k ∈ keys r := by
  rw [unionKeys_eq_firstDedup, mem_firstDedup, List.mem_flatten]
  constructor
  · rintro ⟨l, hl, hk⟩
    obtain ⟨r, hr, rfl⟩ := List.mem_map.mp hl
    exact ⟨r, hr, hk⟩
  · rintro ⟨r, hr, hk⟩
    exact ⟨keys r, List.mem_map.mpr ⟨r, hr, rfl⟩, hk⟩

theorem flattenNode_def (r : NodeRow) :
    flattenNode r = dictUpdate
      [("id", Value.int r.nodeId),
       ("label", Value.str (match r.labels with | [] => "" | l :: _ => l))]
      (r.props.getD []) := rfl

theorem flattenEdge_def (r : EdgeRow) :
    flattenEdge r = dictUpdate
      [("id", Value.int r.edgeId), ("type", Value.str r.edgeType),
       ("from_id", Value.int r.fromId), ("to_id", Value.int r.toId)]
      (r.props.getD []) := rfl

theorem toTable_columns (records : List Dict) :
    (toTable records).columns = unionKeys records := rfl

theorem toTable_rows (records : List Dict) :
    (toTable records).rows =
      records.map (fun r => (unionKeys records).map (fun c => dictGet r c)) := rfl

theorem keys_flattenNode (r : NodeRow) :
    ∃ extra, keys (flattenNode r) = "id" :: "label" :: extra := by
  obtain ⟨e, he⟩ := keys_dictUpdate_append
    [("id", Value.int r.nodeId),
     ("label", Value.str (match r.labels with | [] => "" | l :: _ => l))]
    (r.props.getD [])
  exact ⟨e, by rw [flattenNode_def, he]; rfl⟩

theorem keys_flattenEdge (r : EdgeRow) :
    ∃ extra, keys (flattenEdge r) =
      "id" :: "type" :: "from_id" :: "to_id" :: extra := by
  obtain ⟨e, he⟩ := keys_dictUpdate_append
    [("id", Value.int r.edgeId), ("type", Value.str r.edgeType),
     ("from_id", Value.int r.fromId), ("to_id", Value.int r.toId)]
    (r.props.getD [])
  exact ⟨e, by rw [flattenEdge_def, he]; rfl⟩

theorem take2_of_firstDedup (a b : String) (l : List String)
    (hab : (b != a) = true) :
    (firstDedup (a :: b :: l)).take 2 = [a, b] := by
  rw [firstDedup_cons, List.filter_cons, if_pos hab, firstDedup_cons]
  rfl

theorem take4_of_firstDedup (a b c d : String) (l : List String)
    (h1 : (b != a) = true) (h2 : (c != a) = true) (h3 : (c != b) = true)
    (h4 : (d != a) = true) (h5 : (d != b) = true) (h6 : (d != c) = true) :
    (firstDedup (a :: b :: c :: d :: l)).take 4 = [a, b, c, d] := by
  rw [firstDedup_cons, List.filter_cons, if_pos h1, List.filter_cons, if_pos h2,
    List.filter_cons, if_pos h4, firstDedup_cons, List.filter_cons, if_pos h3,
    List.filter_cons, if_pos h5, firstDedup_cons, List.filter_cons, if_pos h6,
    firstDedup_cons]
  rfl

/-! The claims. -/

/-- C1 counterexample: for the node row with identity 1, label sequence
["A"] and property mapping containing the key "label" with value "B", the
flattened record's label field is not the first element "A" of the label
sequence: the property overlay has overwritten it. -/
theorem C1_counterexample :
    dictGet (flattenNode ⟨1, ["A"], some [("label", Value.str "B")]⟩) "label" ≠
      some (Value.str "A") := by
  decide

/-- C1 (amended): for every node row whose property mapping does not itself
contain the key "label", the flattened record's label field is the first
element of the node's label sequence when that sequence is non-empty and the
empty string when it is empty; labels beyond the first never influence the
record (flattening only depends on the first label). -/
theorem C1_label_first_or_empty (r : NodeRow)
    (h : "label" ∉ keys (r.props.getD [])) :
    dictGet (flattenNode r) "label" = some (Value.str (r.labels.headD "")) ∧
    flattenNode r = flattenNode ⟨r.nodeId, r.labels.take 1, r.props⟩ := by
  obtain ⟨i, ls, p⟩ := r
  constructor
  · rw [flattenNode_def,
      dictGet_dictUpdate_not_mem _ _ _ (by simpa using h)]
    cases ls <;> simp [dictGet_cons]
  · cases ls <;> rfl

/-- C1 witness: the amended theorem applied to a concrete two-label node
row with a non-colliding property. -/
theorem C1_label_first_or_empty_witness :
    dictGet (flattenNode ⟨7, ["Person", "Admin"], some [("name", Value.str "a")]⟩)
        "label" =
      some (Value.str ((["Person", "Admin"] : List String).headD "")) ∧
    flattenNode ⟨7, ["Person", "Admin"], some [("name", Value.str "a")]⟩ =
      flattenNode ⟨7, (["Person", "Admin"] : List String).take 1,
        some [("name", Value.str "a")]⟩ :=
  C1_label_first_or_empty ⟨7, ["Person", "Admin"], some [("name", Value.str "a")]⟩
    (by decide)

/-- C2: for every node row whose property mapping contains some key (in
particular one equal to "id" or "label") and every edge row likewise (in
particular "id", "type", "from_id" or "to_id"), the flattened record holds
the property value under that key: the overlay silently overwrites the
seeded fixed value, last-write-wins. -/
theorem C2_property_overlay_wins (nr : NodeRow) (er : EdgeRow)
    (k : String) (v : Value) :
    ((keys (nr.props.getD [])).Nodup → (k, v) ∈ nr.props.getD [] →
      dictGet (flattenNode nr) k = some v) ∧
    ((keys (er.props.getD [])).Nodup → (k, v) ∈ er.props.getD [] →
      dictGet (flattenEdge er) k = some v) := by
  constructor
  · intro hnd hm
    rw [flattenNode_def]
    exact dictGet_dictUpdate_mem _ _ _ _ hnd hm
  · intro hnd hm
    rw [flattenEdge_def]
    exact dictGet_dictUpdate_mem _ _ _ _ hnd hm

/-- C2 witness: a node property "id" and an edge property "type" overwrite
the seeded fixed values at concrete rows. -/
theorem C2_property_overlay_wins_witness :
    dictGet (flattenNode ⟨1, ["A"], some [("id", Value.str "x")]⟩) "id" =
      some (Value.str "x") ∧
    dictGet (flattenEdge ⟨2, "T", 3, 4, some [("type", Value.int 9)]⟩) "type" =
      some (Value.int 9) :=
  ⟨(C2_property_overlay_wins ⟨1, ["A"], some [("id", Value.str "x")]⟩
      ⟨2, "T", 3, 4, some [("type", Value.int 9)]⟩ "id" (Value.str "x")).1
      (by decide) (by decide),
   (C2_property_overlay_wins ⟨1, ["A"], some [("id", Value.str "x")]⟩
      ⟨2, "T", 3, 4, some [("type", Value.int 9)]⟩ "type" (Value.int 9)).2
      (by decide) (by decide)⟩

/-- C3: the flattened edge record is seeded with exactly the fixed keys
"id", "type", "from_id", "to_id" bound to the first four tuple components,
then overlaid with every key of the property mapping: its key set is
exactly the union of the fixed keys and the property keys, every property
pair is held verbatim, and every non-overlaid key reads from the seed. -/
theorem C3_edge_record_shape (r : EdgeRow)
    (hnd : (keys (r.props.getD [])).Nodup) :
    (∀ k, k ∈ keys (flattenEdge r) ↔
        k ∈ ["id", "type", "from_id", "to_id"] ∨ k ∈ keys (r.props.getD [])) ∧
    (∀ k v, (k, v) ∈ r.props.getD [] → dictGet (flattenEdge r) k = some v) ∧
    (∀ k, k ∉ keys (r.props.getD []) →
        dictGet (flattenEdge r) k =
          dictGet [("id", Value.int r.edgeId), ("type", Value.str r.edgeType),
            ("from_id", Value.int r.fromId), ("to_id", Value.int r.toId)] k) := by
  refine ⟨?_, ?_, ?_⟩
  · intro k
    rw [flattenEdge_def]
    rw [mem_keys_dictUpdate]
    simp [keys]
  · intro k v hm
    rw [flattenEdge_def]
    exact dictGet_dictUpdate_mem _ _ _ _ hnd hm
  · intro k hk
    rw [flattenEdge_def]
    exact dictGet_dictUpdate_not_mem _ _ _ hk

/-- C3 witness: the shape theorem applied to a concrete edge row, reading
back its overlaid property and a fixed key. -/
theorem C3_edge_record_shape_witness :
    dictGet (flattenEdge ⟨5, "KNOWS", 1, 2, some [("since", Value.int 2015)]⟩)
        "since" = some (Value.int 2015) ∧
    dictGet (flattenEdge ⟨5, "KNOWS", 1, 2, some [("since", Value.int 2015)]⟩)
        "from_id" =
      dictGet [("id", Value.int 5), ("type", Value.str "KNOWS"),
        ("from_id", Value.int 1), ("to_id", Value.int 2)] "from_id" :=
  ⟨(C3_edge_record_shape ⟨5, "KNOWS", 1, 2, some [("since", Value.int 2015)]⟩
      (by decide)).2.1 "since" (Value.int 2015) (by decide),
   (C3_edge_record_shape ⟨5, "KNOWS", 1, 2, some [("since", Value.int 2015)]⟩
      (by decide)).2.2 "from_id" (by decide)⟩

/-- C4: a run against a reachable server writes exactly the two files, with
one row per node query result row in nodes.csv and one row per edge query
result row in edges.csv. -/
theorem C4_row_counts (s : Server) (h : s.reachable = true) :
    ∃ tn te, export_graph s = ([("nodes.csv", tn), ("edges.csv", te)], none) ∧
      tn.rows.length = s.nodeRows.length ∧
      te.rows.length = s.edgeRows.length := by
  refine ⟨toTable (flattenNodes s.nodeRows), toTable (flattenEdges s.edgeRows),
    ?_, ?_, ?_⟩
  · simp [export_graph, h]
  · simp [toTable_rows, flattenNodes_eq_map]
  · simp [toTable_rows, flattenEdges_eq_map]

/-- C4 witness: the row-count theorem applied to a concrete server with one
node and two edges. -/
theorem C4_row_counts_witness :
    ∃ tn te,
      export_graph
          (Server.mk true [⟨1, ["A"], none⟩]
            [⟨1, "T", 1, 1, none⟩, ⟨2, "T", 1, 1, none⟩]) =
        ([("nodes.csv", tn), ("edges.csv", te)], none) ∧
      tn.rows.length =
        (Server.mk true [⟨1, ["A"], none⟩]
          [⟨1, "T", 1, 1, none⟩, ⟨2, "T", 1, 1, none⟩]).nodeRows.length ∧
      te.rows.length =
        (Server.mk true [⟨1, ["A"], none⟩]
          [⟨1, "T", 1, 1, none⟩, ⟨2, "T", 1, 1, none⟩]).edgeRows.length :=
  C4_row_counts
    (Server.mk true [⟨1, ["A"], none⟩]
      [⟨1, "T", 1, 1, none⟩, ⟨2, "T", 1, 1, none⟩]) rfl

/-- C5: a null/absent property mapping is treated as an empty mapping and
the flattened record holds exactly the fixed keys; flattening is a total
function, so no error is ever raised. -/
theorem C5_null_props_fixed_only (i : Int) (ls : List String)
    (ei fr toI : Int) (t : String) :
    flattenNode ⟨i, ls, none⟩ =
      [("id", Value.int i), ("label", Value.str (ls.headD ""))] ∧
    flattenEdge ⟨ei, t, fr, toI, none⟩ =
      [("id", Value.int ei), ("type", Value.str t),
       ("from_id", Value.int fr), ("to_id", Value.int toI)] := by
  constructor
  · cases ls <;> rfl
  · rfl

/-- C6: exporting a reachable empty graph (zero nodes, zero edges) does not
fail: both files are written and each is the zero-row, zero-column table. -/
theorem C6_empty_graph (s : Server) (h1 : s.reachable = true)
    (h2 : s.nodeRows = []) (h3 : s.edgeRows = []) :
    export_graph s = ([("nodes.csv", ⟨[], []⟩), ("edges.csv", ⟨[], []⟩)], none) := by
  simp [export_graph, h1, h2, h3, flattenNodes, flattenEdges, toTable, unionKeys]

/-- C6 witness: the empty-graph theorem at the concrete empty server. -/
theorem C6_empty_graph_witness :
    export_graph (Server.mk true [] []) =
      ([("nodes.csv", ⟨[], []⟩), ("edges.csv", ⟨[], []⟩)], none) :=
  C6_empty_graph (Server.mk true [] []) rfl rfl rfl

/-- C7: for a write call, the column set equals the union of all keys across
all records (a key is a column exactly when some record carries it), row i
is record i rendered along the column list, and a record lacking a column
renders an empty cell (none), never an error. -/
theorem C7_columns_union (records : List Dict) :
    (∀ k, k ∈ (toTable records).columns ↔ ∃ r, r ∈ records ∧ k ∈ keys r) ∧
    (∀ (i : Nat) (r : Dict), records[i]? = some r →
      (toTable records).rows[i]? =
        some ((toTable records).columns.map (fun c => dictGet r c))) ∧
    (∀ r c, r ∈ records → c ∉ keys r → dictGet r c = none) := by
  refine ⟨?_, ?_, ?_⟩
  · intro k
    exact mem_unionKeys records k
  · intro i r hir
    simp [toTable_rows, toTable_columns, List.getElem?_map, hir]
  · intro r c _ hc
    exact dictGet_eq_none_of_not_mem_keys r c hc

/-- C7 witness: the column-union theorem applied to two concrete records
with disjoint keys. -/
theorem C7_columns_union_witness :
    "name" ∈ (toTable [[("id", Value.int 1)], [("name", Value.str "n")]]).columns ∧
    (toTable [[("id", Value.int 1)], [("name", Value.str "n")]]).rows[1]? =
      some ((toTable [[("id", Value.int 1)], [("name", Value.str "n")]]).columns.map
        (fun c => dictGet [("name", Value.str "n")] c)) :=
  ⟨((C7_columns_union [[("id", Value.int 1)], [("name", Value.str "n")]]).1
      "name").mpr ⟨[("name", Value.str "n")], by decide, by decide⟩,
   (C7_columns_union [[("id", Value.int 1)], [("name", Value.str "n")]]).2.1
      1 [("name", Value.str "n")] (by decide)⟩

/-- C8: the accumulated record sequences preserve the server return order:
the node and edge loops produce exactly the row-wise flattenings, and the
record at position i is the flattening of the row at position i. -/
theorem C8_order_preserved (nrows : List NodeRow) (erows : List EdgeRow)
    (i : Nat) :
    flattenNodes nrows = nrows.map flattenNode ∧
    flattenEdges erows = erows.map flattenEdge ∧
    (flattenNodes nrows)[i]? = (nrows[i]?).map flattenNode ∧
    (flattenEdges erows)[i]? = (erows[i]?).map flattenEdge := by
  refine ⟨flattenNodes_eq_map nrows, flattenEdges_eq_map erows, ?_, ?_⟩
  · rw [flattenNodes_eq_map, List.getElem?_map]
  · rw [flattenEdges_eq_map, List.getElem?_map]

/-- C9: when the endpoint is unreachable the export surfaces the connection
error unmodified and writes no file at all: the written-file list is empty. -/
theorem C9_connection_error (s : Server) (h : s.reachable = false) :
    export_graph s = ([], some ExportError.connectionError) := by
  simp [export_graph, h]

/-- C9 witness: the connection-error theorem at a concrete unreachable
server that does hold data. -/
theorem C9_connection_error_witness :
    export_graph (Server.mk false [⟨1, [], none⟩] []) =
      ([], some ExportError.connectionError) :=
  C9_connection_error (Server.mk false [⟨1, [], none⟩] []) rfl

/-- C10: in a non-empty export the written column order starts with the
fixed keys in insertion order — nodes.csv's first two columns are "id" and
"label", edges.csv's first four are "id", "type", "from_id", "to_id" — and
the full column list is the order of first appearance of keys across the
flattened records. -/
theorem C10_column_order (nrows : List NodeRow) (erows : List EdgeRow)
    (hn : nrows ≠ []) (he : erows ≠ []) :
    (toTable (flattenNodes nrows)).columns.take 2 = ["id", "label"] ∧
    (toTable (flattenEdges erows)).columns.take 4 =
      ["id", "type", "from_id", "to_id"] ∧
    (toTable (flattenNodes nrows)).columns =
      firstDedup (((flattenNodes nrows).map keys).flatten) ∧
    (toTable (flattenEdges erows)).columns =
      firstDedup (((flattenEdges erows).map keys).flatten) := by
  obtain ⟨r0, nrest, rfl⟩ := List.exists_cons_of_ne_nil hn
  obtain ⟨e0, erest, rfl⟩ := List.exists_cons_of_ne_nil he
  refine ⟨?_, ?_, unionKeys_eq_firstDedup _, unionKeys_eq_firstDedup _⟩
  · obtain ⟨ex, hex⟩ := keys_flattenNode r0
    rw [toTable_columns, unionKeys_eq_firstDedup, flattenNodes_eq_map,
      List.map_cons, List.map_cons, List.flatten_cons, hex, List.cons_append,
      List.cons_append]
    exact take2_of_firstDedup _ _ _ (by decide)
  · obtain ⟨ex, hex⟩ := keys_flattenEdge e0
    rw [toTable_columns, unionKeys_eq_firstDedup, flattenEdges_eq_map,
      List.map_cons, List.map_cons, List.flatten_cons, hex, List.cons_append,
      List.cons_append, List.cons_append, List.cons_append]
    exact take4_of_firstDedup _ _ _ _ _ (by decide) (by decide) (by decide)
      (by decide) (by decide) (by decide)

/-- C10 witness: the column-order theorem at a concrete one-node, one-edge
export with an extra property column. -/
theorem C10_column_order_witness :
    (toTable (flattenNodes [⟨1, ["A"], some [("name", Value.str "n")]⟩])).columns.take 2 =
      ["id", "label"] ∧
    (toTable (flattenEdges [⟨1, "T", 1, 1, none⟩])).columns.take 4 =
      ["id", "type", "from_id", "to_id"] ∧
    (toTable (flattenNodes [⟨1, ["A"], some [("name", Value.str "n")]⟩])).columns =
      firstDedup (((flattenNodes [⟨1, ["A"], some [("name", Value.str "n")]⟩]).map keys).flatten) ∧
    (toTable (flattenEdges [⟨1, "T", 1, 1, none⟩])).columns =
      firstDedup (((flattenEdges [⟨1, "T", 1, 1, none⟩]).map keys).flatten) :=
  C10_column_order [⟨1, ["A"], some [("name", Value.str "n")]⟩]
    [⟨1, "T", 1, 1, none⟩] (by decide) (by decide)

end GraphExporter
